import Mathlib

/-!
Shallow embedding of the tor1 relay-cell cryptography layer
(crates/tor-proto/src/crypto/cell/tor1.rs).

Bytes are modelled as natural numbers combined with bitwise xor; a cell
body is a list of bytes.  A stream cipher instance is an abstract
keystream function together with a monotonically advancing position; a
keyed digest instance is the list of bytes absorbed so far, finalized
through an abstract hash function of fixed output width.  All stateful
Rust methods become pure functions returning the updated state.
-/

namespace Tor1

/-! ## Generic list slicing helpers -/

/-- The slice l[a..b] of a byte buffer, as in Rust range indexing. -/
def slice (l : List Nat) (a b : Nat) : List Nat :=
  (l.drop a).take (b - a)

/-- Overwrite the range starting at `a` with the bytes of `r`
(models in-place writes such as fill(0) and copy_from_slice on a
subrange of the buffer). -/
def setRange (l : List Nat) (a : Nat) (r : List Nat) : List Nat :=
  l.take a ++ r ++ l.drop (a + r.length)

/-! ## Stream cipher -/

/-- A family of stream ciphers: `cipher::StreamCipher + KeyIvInit`.
`ks key iv` is the infinite keystream determined by a key and an
initialization vector; byte `i` of the keystream is `ks key iv i`. -/
structure CipherSpec where
  keyLen : Nat
  ivLen : Nat
  ks : List Nat → List Nat → Nat → Nat

/-- A live stream-cipher instance: its keystream is fixed at creation
and its position advances with every byte processed. -/
structure CipherState where
  stream : Nat → Nat
  pos : Nat

/-- Xor a buffer against the keystream `f` starting at position `i`. -/
def xorStream (f : Nat → Nat) : Nat → List Nat → List Nat
  | _, [] => []
  | i, b :: rest => (b ^^^ f i) :: xorStream f (i + 1) rest

/-- `StreamCipher::apply_keystream`: xor the whole buffer in place with
the keystream at the current position, advancing the position by the
buffer length. -/
def applyKeystream (c : CipherState) (buf : List Nat) : CipherState × List Nat :=
  (⟨c.stream, c.pos + buf.length⟩, xorStream c.stream c.pos buf)

/-- The all-zero default IV (`&Default::default()` on a generic array). -/
def zeroIV (C : CipherSpec) : List Nat :=
  List.replicate C.ivLen 0

/-- `SC::new(key, &Default::default())`: key the cipher with a zero IV,
position starting at 0. -/
def CipherSpec.newCipher (C : CipherSpec) (key : List Nat) : CipherState :=
  ⟨C.ks key (zeroIV C), 0⟩

/-! ## Keyed digest -/

/-- A digest family: `digest::Digest + Clone`.  A digest instance is the
list of bytes absorbed so far (`D::new()` is `[]`, `update` appends,
`Clone` copies); `finalize` applies `hash`, producing `outLen` bytes. -/
structure DigestSpec where
  outLen : Nat
  hash : List Nat → List Nat
  hash_len : ∀ l, (hash l).length = outLen

/-! ## Constant-time helpers

Modelled from the spec: the source calls `crate::util::ct::is_zero` and
`crate::util::ct::bytes_eq`, declared outside the files at hand; the spec
describes them as a constant-time all-zero test and a constant-time
byte-equality test over byte slices.  Functionally they are the plain
tests; their timing behaviour is not modelled. -/

/-- Modelled from the spec: constant-time test that every byte is zero. -/
def ct_is_zero (l : List Nat) : Bool :=
  l.all (fun b => b == 0)

/-- Modelled from the spec: constant-time byte-slice equality. -/
def ct_bytes_eq (a b : List Nat) : Bool :=
  decide (a = b)

/-! ## Cell format descriptor -/

/-- Modelled from the spec: the `RelayCellFormatTrait` / `RelayCellFields`
descriptor, declared in the tor-cell crate, gives the fixed cell length,
the byte range of the `recognized` field and the byte range of the
`digest` field.  (`EMPTY_DIGEST` is the all-zero pattern matching the
digest field's width.) -/
structure CellFormat where
  cellLen : Nat
  recogStart : Nat
  recogEnd : Nat
  digestStart : Nat
  digestEnd : Nat

/-- Width of the recognized field. -/
def CellFormat.recogWidth (F : CellFormat) : Nat :=
  F.recogEnd - F.recogStart

/-- Width of the digest field. -/
def CellFormat.digestWidth (F : CellFormat) : Nat :=
  F.digestEnd - F.digestStart

/-- `RCF::FIELDS::EMPTY_DIGEST`: the all-zero pattern matching the
digest field's width. -/
def CellFormat.EMPTY_DIGEST (F : CellFormat) : List Nat :=
  List.replicate F.digestWidth 0

/-- Well-formedness of a format: the recognized range precedes the
digest range and both lie inside the cell. -/
def CellFormat.WF (F : CellFormat) : Prop :=
  F.recogStart ≤ F.recogEnd ∧ F.recogEnd ≤ F.digestStart ∧
    F.digestStart ≤ F.digestEnd ∧ F.digestEnd ≤ F.cellLen

instance (F : CellFormat) : Decidable F.WF := by
  unfold CellFormat.WF; infer_instance

/-- Modelled from the spec: the current wire format (`RelayCellFormatV0`):
509-byte cell, 2-byte recognized field, 4-byte digest field. -/
def formatV0 : CellFormat :=
  ⟨509, 1, 3, 5, 9⟩

/-! ## RelayCellBody field accessors (tor1.rs, `impl RelayCellBody`) -/

/-- `RelayCellBody::recognized`: the byte slice of the recognized field. -/
def recognizedField (F : CellFormat) (cell : List Nat) : List Nat :=
  slice cell F.recogStart F.recogEnd

/-- `RelayCellBody::digest`: the byte slice of the digest field. -/
def digestField (F : CellFormat) (cell : List Nat) : List Nat :=
  slice cell F.digestStart F.digestEnd

/-- `RelayCellBody::set_digest`: zero the recognized field, zero the
digest field, feed the whole buffer to the running digest, snapshot the
finalized value, and write its first digest-field-width bytes into the
digest field.  Returns (new cell, new running digest, new used digest). -/
def set_digest (D : DigestSpec) (F : CellFormat) (cell d : List Nat) :
    List Nat × List Nat × List Nat :=
  let c1 := setRange cell F.recogStart (List.replicate F.recogWidth 0)
  let c2 := setRange c1 F.digestStart (List.replicate F.digestWidth 0)
  let d2 := d ++ c2
  let used := D.hash d2
  let c3 := setRange c2 F.digestStart (used.take F.digestWidth)
  (c3, d2, used)

/-- `RelayCellBody::is_recognized`: test the recognized field with the
constant-time zero test; on success feed a scratch clone of the running
digest with the buffer (digest field replaced by the all-zero pattern),
finalize it, and compare the cell's digest field against the truncated
result in constant time; commit the scratch state and record the full
value only on a match.  Returns (recognized, new running digest, new
last digest value). -/
def is_recognized (D : DigestSpec) (F : CellFormat) (cell d rcvd : List Nat) :
    Bool × List Nat × List Nat :=
  if ct_is_zero (recognizedField F cell) = false then
    (false, d, rcvd)
  else
    let dtmp := d ++ cell.take F.digestStart ++ F.EMPTY_DIGEST ++ cell.drop F.digestEnd
    let result := D.hash dtmp
    if ct_bytes_eq (digestField F cell) (result.take F.digestWidth) then
      (true, dtmp, result)
    else
      (false, d, rcvd)

/-! ## Directional state and layer operations -/

/-- `CryptState`: one layer of shared cryptographic state for a single
hop in a single direction: a stream cipher, a running digest, and the
most recent digest value. -/
structure CryptState where
  cipher : CipherState
  digest : List Nat
  last_digest_val : List Nat

instance : Inhabited CryptState :=
  ⟨⟨⟨fun _ => 0, 0⟩, [], []⟩⟩

/-- `OutboundClientLayer::encrypt_outbound`: apply the keystream to the
whole cell buffer.  Returns (new state, new cell). -/
def encrypt_outbound (s : CryptState) (cell : List Nat) : CryptState × List Nat :=
  let e := applyKeystream s.cipher cell
  (⟨e.1, s.digest, s.last_digest_val⟩, e.2)

/-- `InboundRelayLayer::encrypt_inbound`: apply the keystream to the
whole cell buffer.  Returns (new state, new cell). -/
def encrypt_inbound (s : CryptState) (cell : List Nat) : CryptState × List Nat :=
  let e := applyKeystream s.cipher cell
  (⟨e.1, s.digest, s.last_digest_val⟩, e.2)

/-- `OutboundClientLayer::originate_for`: set the digest and recognized
fields, encrypt, and return the first `tagLen` bytes of the last digest
value as the authentication tag.  Returns (new state, new cell, tag). -/
def originate_for (D : DigestSpec) (F : CellFormat) (tagLen : Nat)
    (s : CryptState) (cell : List Nat) : CryptState × List Nat × List Nat :=
  let sd := set_digest D F cell s.digest
  let e := applyKeystream s.cipher sd.1
  (⟨e.1, sd.2.1, sd.2.2⟩, e.2, sd.2.2.take tagLen)

/-- `InboundRelayLayer::originate`: set the digest and recognized
fields, encrypt inbound, and return the first `tagLen` bytes of the
last digest value.  Returns (new state, new cell, tag). -/
def originate (D : DigestSpec) (F : CellFormat) (tagLen : Nat)
    (s : CryptState) (cell : List Nat) : CryptState × List Nat × List Nat :=
  let sd := set_digest D F cell s.digest
  let e := applyKeystream s.cipher sd.1
  (⟨e.1, sd.2.1, sd.2.2⟩, e.2, sd.2.2.take tagLen)

/-- `OutboundRelayLayer::decrypt_outbound`: apply the keystream, then
run the recognition check; on recognition return the first `tagLen`
bytes of the last digest value.  Returns (new state, new cell, tag
option). -/
def decrypt_outbound (D : DigestSpec) (F : CellFormat) (tagLen : Nat)
    (s : CryptState) (cell : List Nat) :
    CryptState × List Nat × Option (List Nat) :=
  let e := applyKeystream s.cipher cell
  let r := is_recognized D F e.2 s.digest s.last_digest_val
  (⟨e.1, r.2.1, r.2.2⟩, e.2, if r.1 then some (r.2.2.take tagLen) else none)

/-- `InboundClientLayer::decrypt_inbound`: apply the keystream, then run
the recognition check; on recognition return the first `tagLen` bytes
of the last digest value.  Returns (new state, new cell, tag option). -/
def decrypt_inbound (D : DigestSpec) (F : CellFormat) (tagLen : Nat)
    (s : CryptState) (cell : List Nat) :
    CryptState × List Nat × Option (List Nat) :=
  let e := applyKeystream s.cipher cell
  let r := is_recognized D F e.2 s.digest s.last_digest_val
  (⟨e.1, r.2.1, r.2.2⟩, e.2, if r.1 then some (r.2.2.take tagLen) else none)

/-! ## Key derivation: CryptStatePair -/

/-- Modelled from the spec: `CIRC_BINDING_LEN`, the fixed length of the
circuit-binding key material, declared in crypto/binding.  The spec's
known-answer scenario uses 92-byte seeds with a 20-byte digest output
and a 16-byte cipher key, so the binding length is 20. -/
def CIRC_BINDING_LEN : Nat := 20

/-- The two error kinds of this core. -/
inductive Error where
  | internalInvariant : Error
  | bindingError : Error
deriving DecidableEq

/-- A circuit-binding key (opaque byte value). -/
structure CircuitBinding where
  key : List Nat
deriving DecidableEq

/-- Modelled from the spec: `CircuitBinding::try_from`, the external
binding-key constructor accepting a fixed-length byte slice and failing
on malformed input. -/
def CircuitBinding.tryFrom (l : List Nat) : Except Error CircuitBinding :=
  if l.length = CIRC_BINDING_LEN then .ok ⟨l⟩ else .error .bindingError

/-- `CryptStatePair`: forward state, backward state, and the circuit
binding key, derived together from one seed. -/
structure CryptStatePair where
  fwd : CryptState
  back : CryptState
  binding : CircuitBinding

instance : Inhabited CryptStatePair :=
  ⟨⟨default, default, ⟨[]⟩⟩⟩

/-- `CryptInit::seed_len` for `CryptStatePair`. -/
def seed_len (C : CipherSpec) (D : DigestSpec) : Nat :=
  C.keyLen * 2 + D.outLen * 2 + CIRC_BINDING_LEN

/-- `CryptInit::initialize` for `CryptStatePair`: reject any seed whose
length is not `seed_len`, then split the seed in order into the forward
digest seed, backward digest seed, forward cipher key, backward cipher
key, and binding key material; key each cipher with a zero IV, prime
each digest with its seed slice, and construct the binding key. -/
def initPair (C : CipherSpec) (D : DigestSpec) (seed : List Nat) :
    Except Error CryptStatePair :=
  if seed.length ≠ seed_len C D then
    .error .internalInvariant
  else
    let dlen := D.outLen
    let keylen := C.keyLen
    let df := seed.take dlen
    let r1 := seed.drop dlen
    let db := r1.take dlen
    let r2 := r1.drop dlen
    let kf := r2.take keylen
    let r3 := r2.drop keylen
    let kb := r3.take keylen
    let r4 := r3.drop keylen
    let bk := r4.take CIRC_BINDING_LEN
    match CircuitBinding.tryFrom bk with
    | .error e => .error e
    | .ok binding =>
        .ok ⟨⟨C.newCipher kf, df, List.replicate D.outLen 0⟩,
             ⟨C.newCipher kb, db, List.replicate D.outLen 0⟩,
             binding⟩

/-- Modelled from the spec: `SENDME_TAG_LEN`, the fixed authentication
tag length, declared in crypto/cell; per the spec it is a fixed-length
prefix no wider than the digest field (4 bytes in the current format). -/
def SENDME_TAG_LEN : Nat := 4

/-! ## Helper lemmas about the byte-level operations -/

lemma length_xorStream (f : Nat → Nat) :
    ∀ (i : Nat) (l : List Nat), (xorStream f i l).length = l.length := by
  intro i l
  induction l generalizing i with
  | nil => rfl
  | cons b rest ih => simp [xorStream, ih]

lemma xorStream_xorStream (f : Nat → Nat) :
    ∀ (i : Nat) (l : List Nat), xorStream f i (xorStream f i l) = l := by
  intro i l
  induction l generalizing i with
  | nil => rfl
  | cons b rest ih => simp [xorStream, ih, Nat.xor_cancel_right]

lemma length_setRange {l r : List Nat} {a : Nat} (h : a + r.length ≤ l.length) :
    (setRange l a r).length = l.length := by
  simp only [setRange, List.length_append, List.length_take, List.length_drop]
  omega

lemma take_setRange {l r : List Nat} {a b : Nat} (hba : b ≤ a)
    (hal : a ≤ l.length) : (setRange l a r).take b = l.take b := by
  have h1 : b ≤ (l.take a).length := by
    simp only [List.length_take]; omega
  rw [setRange, List.append_assoc, List.take_append_of_le_length h1,
    List.take_take, min_eq_left hba]

lemma drop_setRange {l r : List Nat} {a : Nat} (h : a + r.length ≤ l.length) :
    (setRange l a r).drop (a + r.length) = l.drop (a + r.length) := by
  have hlen : (l.take a ++ r).length = a + r.length := by
    simp only [List.length_append, List.length_take]; omega
  calc (setRange l a r).drop (a + r.length)
      = ((l.take a ++ r) ++ l.drop (a + r.length)).drop ((l.take a ++ r).length) := by
        rw [hlen]; simp [setRange]
    _ = l.drop (a + r.length) := List.drop_left _ _

lemma slice_setRange_self {l r : List Nat} {a : Nat}
    (h : a + r.length ≤ l.length) : slice (setRange l a r) a (a + r.length) = r := by
  have hlen : (l.take a).length = a := by
    simp only [List.length_take]; omega
  have hdrop : (setRange l a r).drop a = r ++ l.drop (a + r.length) := by
    rw [setRange, List.append_assoc, List.drop_left' hlen]
  rw [slice, hdrop, Nat.add_sub_cancel_left, List.take_left' rfl]

lemma slice_eq_drop_take (l : List Nat) (s e : Nat) :
    slice l s e = (l.take e).drop s := by
  rw [slice, List.drop_take]

lemma slice_setRange_before {l r : List Nat} {a s e : Nat} (hes : e ≤ a)
    (hal : a ≤ l.length) : slice (setRange l a r) s e = slice l s e := by
  rw [slice_eq_drop_take, slice_eq_drop_take, take_setRange hes hal]

lemma ct_is_zero_replicate (n : Nat) :
    ct_is_zero (List.replicate n 0) = true := by
  simp only [ct_is_zero, List.all_eq_true]
  intro b hb
  simp [List.eq_of_mem_replicate hb]

lemma ct_bytes_eq_self (a : List Nat) : ct_bytes_eq a a = true := by
  simp [ct_bytes_eq]

/-- If a cell has an all-zero recognized field, carries the truncated
digest of the zero-digest-field buffer in its digest field, and agrees
with `c2` outside the digest field, then the recognition check succeeds
and commits exactly the scratch digest and the full finalized value. -/
lemma is_recognized_eq_true_of (D : DigestSpec) (F : CellFormat)
    (c3 c2 d rcvd : List Nat)
    (hrec : recognizedField F c3 = List.replicate F.recogWidth 0)
    (hmid : c3.take F.digestStart ++ F.EMPTY_DIGEST ++ c3.drop F.digestEnd = c2)
    (hdig : digestField F c3 = (D.hash (d ++ c2)).take F.digestWidth) :
    is_recognized D F c3 d rcvd = (true, d ++ c2, D.hash (d ++ c2)) := by
  have hz : ct_is_zero (recognizedField F c3) = true := by
    rw [hrec]; exact ct_is_zero_replicate _
  have hd2 : d ++ c3.take F.digestStart ++ F.EMPTY_DIGEST ++ c3.drop F.digestEnd
      = d ++ c2 := by
    rw [← hmid]; simp [List.append_assoc]
  simp only [is_recognized, hz, hd2, hdig, ct_bytes_eq_self,
    Bool.true_eq_false, if_false, if_true]

/-- Running the recognition check on the output of `set_digest`, with
the same running digest it started from, succeeds and returns exactly
the updated running digest and used digest that `set_digest` produced. -/
lemma is_recognized_set_digest (D : DigestSpec) (F : CellFormat)
    (cell d rcvd : List Nat) (hwf : F.WF) (hcell : cell.length = F.cellLen)
    (hout : F.digestWidth ≤ D.outLen) :
    is_recognized D F (set_digest D F cell d).1 d rcvd =
      (true, (set_digest D F cell d).2.1, (set_digest D F cell d).2.2) := by
  obtain ⟨h1, h2, h3, h4⟩ := hwf
  show is_recognized D F
      (setRange
        (setRange (setRange cell F.recogStart (List.replicate F.recogWidth 0))
          F.digestStart (List.replicate F.digestWidth 0))
        F.digestStart
        ((D.hash (d ++ setRange
            (setRange cell F.recogStart (List.replicate F.recogWidth 0))
            F.digestStart (List.replicate F.digestWidth 0))).take F.digestWidth))
      d rcvd =
    (true,
     d ++ setRange (setRange cell F.recogStart (List.replicate F.recogWidth 0))
          F.digestStart (List.replicate F.digestWidth 0),
     D.hash (d ++ setRange
        (setRange cell F.recogStart (List.replicate F.recogWidth 0))
        F.digestStart (List.replicate F.digestWidth 0)))
  set c1 := setRange cell F.recogStart (List.replicate F.recogWidth 0) with hc1
  set c2 := setRange c1 F.digestStart (List.replicate F.digestWidth 0) with hc2
  set pr := (D.hash (d ++ c2)).take F.digestWidth with hpr
  set c3 := setRange c2 F.digestStart pr with hc3
  have lc1 : c1.length = cell.length := by
    rw [hc1]
    apply length_setRange
    simp only [List.length_replicate, CellFormat.recogWidth]
    omega
  have hb2 : F.digestStart + (List.replicate F.digestWidth 0).length ≤ c1.length := by
    simp only [List.length_replicate, CellFormat.digestWidth, lc1]
    omega
  have lc2 : c2.length = cell.length := by
    rw [hc2, length_setRange hb2, lc1]
  have lpr : pr.length = F.digestWidth := by
    rw [hpr]
    simp only [List.length_take, D.hash_len]
    omega
  have e3 : F.digestStart + pr.length = F.digestEnd := by
    rw [lpr]; simp only [CellFormat.digestWidth]; omega
  have e2 : F.digestStart + (List.replicate F.digestWidth 0).length = F.digestEnd := by
    simp only [List.length_replicate, CellFormat.digestWidth]; omega
  apply is_recognized_eq_true_of
  · rw [recognizedField, hc3,
      slice_setRange_before h2 (show F.digestStart ≤ c2.length by rw [lc2]; omega),
      hc2,
      slice_setRange_before h2 (show F.digestStart ≤ c1.length by rw [lc1]; omega),
      hc1]
    have hre : F.recogEnd = F.recogStart + (List.replicate F.recogWidth 0).length := by
      simp only [List.length_replicate, CellFormat.recogWidth]; omega
    rw [hre, slice_setRange_self
      (show F.recogStart + (List.replicate F.recogWidth 0).length ≤ cell.length by
        simp only [List.length_replicate, CellFormat.recogWidth]; omega)]
  · have ht3 : c3.take F.digestStart = c1.take F.digestStart := by
      rw [hc3,
        take_setRange (le_refl F.digestStart)
          (show F.digestStart ≤ c2.length by rw [lc2]; omega),
        hc2,
        take_setRange (le_refl F.digestStart)
          (show F.digestStart ≤ c1.length by rw [lc1]; omega)]
    have hd3 : c3.drop F.digestEnd = c1.drop F.digestEnd := by
      have h5 := drop_setRange
        (show F.digestStart + pr.length ≤ c2.length by rw [e3, lc2]; omega)
      have h6 := drop_setRange
        (show F.digestStart + (List.replicate F.digestWidth 0).length ≤ c1.length by
          rw [e2, lc1]; omega)
      rw [hc3, ← e3, h5, e3, hc2, ← e2, h6]
    rw [ht3, hd3, CellFormat.EMPTY_DIGEST, hc2, setRange, List.length_replicate]
    have ew : F.digestStart + F.digestWidth = F.digestEnd := by
      simp only [CellFormat.digestWidth]; omega
    rw [ew]
  · rw [digestField, ← hpr, hc3, ← e3,
      slice_setRange_self (show F.digestStart + pr.length ≤ c2.length by
        rw [e3, lc2]; omega)]

/-- Originate-then-decrypt on the same starting state: the decrypted
cell is recognized and the returned tag equals originate's tag
(outbound direction). -/
lemma roundTrip_states_outbound (D : DigestSpec) (F : CellFormat)
    (tagLen : Nat) (s : CryptState) (cell : List Nat) (hwf : F.WF)
    (hcell : cell.length = F.cellLen) (hout : F.digestWidth ≤ D.outLen) :
    (decrypt_outbound D F tagLen s (originate_for D F tagLen s cell).2.1).2.2 =
      some (originate_for D F tagLen s cell).2.2 := by
  have hrec := is_recognized_set_digest D F cell s.digest s.last_digest_val
    hwf hcell hout
  simp only [decrypt_outbound, originate_for, applyKeystream,
    xorStream_xorStream, hrec, if_true]

/-- Originate-then-decrypt on the same starting state: the decrypted
cell is recognized and the returned tag equals originate's tag
(inbound direction). -/
lemma roundTrip_states_inbound (D : DigestSpec) (F : CellFormat)
    (tagLen : Nat) (s : CryptState) (cell : List Nat) (hwf : F.WF)
    (hcell : cell.length = F.cellLen) (hout : F.digestWidth ≤ D.outLen) :
    (decrypt_inbound D F tagLen s (originate D F tagLen s cell).2.1).2.2 =
      some (originate D F tagLen s cell).2.2 := by
  have hrec := is_recognized_set_digest D F cell s.digest s.last_digest_val
    hwf hcell hout
  simp only [decrypt_inbound, originate, applyKeystream,
    xorStream_xorStream, hrec, if_true]

/-! ## Small concrete instances used to instantiate the theorems -/

/-- A small concrete stream-cipher family. -/
def toyCipher : CipherSpec :=
  ⟨2, 3, fun key iv i => (key.sum + iv.sum + i) % 256⟩

/-- A small concrete digest family with 6-byte output. -/
def toyDigest : DigestSpec :=
  ⟨6, fun l => [l.length % 256, l.sum % 256, l.headD 0, 7, 1, 3],
   fun _ => rfl⟩

/-- A small concrete cell format: 12-byte cell, recognized field at
bytes 1..3, digest field at bytes 5..9. -/
def toyFormat : CellFormat := ⟨12, 1, 3, 5, 9⟩

/-- A seed of the exact length required by the toy families. -/
def toySeed : List Nat := List.range 36

/-- A concrete 12-byte cell body. -/
def toyCell : List Nat := List.range 12

/-- The state pair derived from the toy seed. -/
def toyPair : CryptStatePair :=
  match initPair toyCipher toyDigest toySeed with
  | .ok p => p
  | .error _ => default

/-- A concrete directional state (the forward half of the toy pair). -/
def toyState : CryptState := toyPair.fwd

/-- The cell with recognized and digest fields zeroed, in that order:
the byte string that `set_digest` feeds to the running digest. -/
def zeroedCell (F : CellFormat) (cell : List Nat) : List Nat :=
  setRange (setRange cell F.recogStart (List.replicate F.recogWidth 0))
    F.digestStart (List.replicate F.digestWidth 0)

/-- C1: for every cell buffer content and every valid seed, if one
Directional State derived from the seed runs originate on the cell,
then running decrypt-and-check on the resulting ciphertext with a
second Directional State derived from the same seed for the same
direction reports recognized and returns an authentication tag
byte-identical to the one originate returned (both directions). -/
theorem originate_recognize_round_trip (C : CipherSpec) (D : DigestSpec)
    (F : CellFormat) (tagLen : Nat) (seed cell : List Nat)
    (p q : CryptStatePair)
    (hp : initPair C D seed = Except.ok p)
    (hq : initPair C D seed = Except.ok q)
    (hwf : F.WF) (hcell : cell.length = F.cellLen)
    (hout : F.digestWidth ≤ D.outLen) :
    ((decrypt_outbound D F tagLen q.fwd
        (originate_for D F tagLen p.fwd cell).2.1).2.2 =
      some (originate_for D F tagLen p.fwd cell).2.2) ∧
    ((decrypt_inbound D F tagLen q.back
        (originate D F tagLen p.back cell).2.1).2.2 =
      some (originate D F tagLen p.back cell).2.2) := by
  have hpq : p = q := by
    rw [hp] at hq
    exact Except.ok.inj hq
  rw [← hpq]
  exact ⟨roundTrip_states_outbound D F tagLen p.fwd cell hwf hcell hout,
         roundTrip_states_inbound D F tagLen p.back cell hwf hcell hout⟩

/-- Witness for C1 at the concrete toy instances. -/
theorem originate_recognize_round_trip_witness :
    (initPair toyCipher toyDigest toySeed = Except.ok toyPair ∧
     toyFormat.WF ∧ toyCell.length = toyFormat.cellLen ∧
     toyFormat.digestWidth ≤ toyDigest.outLen) ∧
    (((decrypt_outbound toyDigest toyFormat 4 toyPair.fwd
        (originate_for toyDigest toyFormat 4 toyPair.fwd toyCell).2.1).2.2 =
      some (originate_for toyDigest toyFormat 4 toyPair.fwd toyCell).2.2) ∧
     ((decrypt_inbound toyDigest toyFormat 4 toyPair.back
        (originate toyDigest toyFormat 4 toyPair.back toyCell).2.1).2.2 =
      some (originate toyDigest toyFormat 4 toyPair.back toyCell).2.2)) :=
  ⟨⟨rfl, by decide, by decide, by decide⟩,
   originate_recognize_round_trip toyCipher toyDigest toyFormat 4 toySeed
     toyCell toyPair toyPair rfl rfl (by decide) (by decide) (by decide)⟩

/-- C2: the running digest accumulator advances if and only if the
recognition check reports recognized; a non-zero recognized field gives
"not recognized" with the running digest (and last digest value)
untouched; any "not recognized" outcome leaves the accumulator exactly
as it was. -/
theorem decrypt_check_commit_atomicity (D : DigestSpec) (F : CellFormat)
    (cell d rcvd : List Nat)
    (hds : F.digestStart ≤ F.digestEnd) (hde : F.digestEnd ≤ cell.length)
    (hpos : 0 < cell.length) :
    ((is_recognized D F cell d rcvd).1 = true ↔
      (is_recognized D F cell d rcvd).2.1 ≠ d) ∧
    (ct_is_zero (recognizedField F cell) = false →
      is_recognized D F cell d rcvd = (false, d, rcvd)) ∧
    ((is_recognized D F cell d rcvd).1 = false →
      (is_recognized D F cell d rcvd).2.1 = d ∧
      (is_recognized D F cell d rcvd).2.2 = rcvd) := by
  have hne : d ++ cell.take F.digestStart ++ F.EMPTY_DIGEST ++
      cell.drop F.digestEnd ≠ d := by
    intro h
    have hlen := congrArg List.length h
    simp only [List.length_append, List.length_take, List.length_drop,
      CellFormat.EMPTY_DIGEST, List.length_replicate,
      CellFormat.digestWidth] at hlen
    omega
  by_cases hz : ct_is_zero (recognizedField F cell) = false
  · simp only [is_recognized, if_pos hz]
    simp
  · simp only [is_recognized, if_neg hz]
    by_cases hq : ct_bytes_eq (digestField F cell)
        ((D.hash (d ++ cell.take F.digestStart ++ F.EMPTY_DIGEST ++
          cell.drop F.digestEnd)).take F.digestWidth) = true
    · simp only [if_pos hq]
      refine ⟨?_, ?_, ?_⟩
      · simpa using hne
      · intro h; exact absurd h hz
      · intro h; simp at h
    · simp only [if_neg hq]
      simp

/-- Witness for C2 at concrete toy inputs. -/
theorem decrypt_check_commit_atomicity_witness :
    (toyFormat.digestStart ≤ toyFormat.digestEnd ∧
     toyFormat.digestEnd ≤ toyCell.length ∧ 0 < toyCell.length) ∧
    (((is_recognized toyDigest toyFormat toyCell [1, 2] [9]).1 = true ↔
      (is_recognized toyDigest toyFormat toyCell [1, 2] [9]).2.1 ≠ [1, 2]) ∧
     (ct_is_zero (recognizedField toyFormat toyCell) = false →
      is_recognized toyDigest toyFormat toyCell [1, 2] [9] =
        (false, [1, 2], [9])) ∧
     ((is_recognized toyDigest toyFormat toyCell [1, 2] [9]).1 = false →
      (is_recognized toyDigest toyFormat toyCell [1, 2] [9]).2.1 = [1, 2] ∧
      (is_recognized toyDigest toyFormat toyCell [1, 2] [9]).2.2 = [9])) :=
  ⟨⟨by decide, by decide, by decide⟩,
   decrypt_check_commit_atomicity toyDigest toyFormat toyCell [1, 2] [9]
     (by decide) (by decide) (by decide)⟩

/-- C5: originate zeroes the recognized field, then the digest field,
feeds the whole zeroed buffer into the running digest, finalizes a
snapshot while keeping the accumulator, writes the first
digest-field-width bytes of the snapshot into the digest field, then
encrypts the whole buffer (advancing the cipher by one buffer width),
and returns the first tag-length bytes of the snapshot; this holds for
both the client and the relay originate operations. -/
theorem originate_step_sequence (D : DigestSpec) (F : CellFormat)
    (tagLen : Nat) (s : CryptState) (cell : List Nat)
    (hwf : F.WF) (hcell : cell.length = F.cellLen) :
    originate_for D F tagLen s cell =
      (⟨⟨s.cipher.stream, s.cipher.pos + cell.length⟩,
        s.digest ++ zeroedCell F cell,
        D.hash (s.digest ++ zeroedCell F cell)⟩,
       xorStream s.cipher.stream s.cipher.pos
         (setRange (zeroedCell F cell) F.digestStart
           ((D.hash (s.digest ++ zeroedCell F cell)).take F.digestWidth)),
       (D.hash (s.digest ++ zeroedCell F cell)).take tagLen) ∧
    originate D F tagLen s cell =
      (⟨⟨s.cipher.stream, s.cipher.pos + cell.length⟩,
        s.digest ++ zeroedCell F cell,
        D.hash (s.digest ++ zeroedCell F cell)⟩,
       xorStream s.cipher.stream s.cipher.pos
         (setRange (zeroedCell F cell) F.digestStart
           ((D.hash (s.digest ++ zeroedCell F cell)).take F.digestWidth)),
       (D.hash (s.digest ++ zeroedCell F cell)).take tagLen) := by
  obtain ⟨h1, h2, h3, h4⟩ := hwf
  have lc1 : (setRange cell F.recogStart
      (List.replicate F.recogWidth 0)).length = cell.length := by
    apply length_setRange
    simp only [List.length_replicate, CellFormat.recogWidth]
    omega
  have hb : F.digestStart + (List.replicate F.digestWidth 0).length ≤
      (setRange cell F.recogStart (List.replicate F.recogWidth 0)).length := by
    simp only [List.length_replicate, CellFormat.digestWidth, lc1]
    omega
  have lz : (zeroedCell F cell).length = cell.length := by
    rw [zeroedCell, length_setRange hb, lc1]
  have hb3 : F.digestStart +
      ((D.hash (s.digest ++ zeroedCell F cell)).take F.digestWidth).length ≤
      (zeroedCell F cell).length := by
    simp only [List.length_take, lz, CellFormat.digestWidth]
    omega
  have lc3 : (setRange (zeroedCell F cell) F.digestStart
      ((D.hash (s.digest ++ zeroedCell F cell)).take
        F.digestWidth)).length = cell.length := by
    rw [length_setRange hb3, lz]
  have key : originate_for D F tagLen s cell =
      (⟨⟨s.cipher.stream, s.cipher.pos + cell.length⟩,
        s.digest ++ zeroedCell F cell,
        D.hash (s.digest ++ zeroedCell F cell)⟩,
       xorStream s.cipher.stream s.cipher.pos
         (setRange (zeroedCell F cell) F.digestStart
           ((D.hash (s.digest ++ zeroedCell F cell)).take F.digestWidth)),
       (D.hash (s.digest ++ zeroedCell F cell)).take tagLen) := by
    simp only [zeroedCell] at lc3
    simp only [originate_for, set_digest, applyKeystream, zeroedCell, lc3]
  exact ⟨key, key⟩

/-- Witness for C5 at concrete toy inputs. -/
theorem originate_step_sequence_witness :
    (toyFormat.WF ∧ toyCell.length = toyFormat.cellLen) ∧
    (originate_for toyDigest toyFormat 4 toyState toyCell =
      (⟨⟨toyState.cipher.stream, toyState.cipher.pos + toyCell.length⟩,
        toyState.digest ++ zeroedCell toyFormat toyCell,
        toyDigest.hash (toyState.digest ++ zeroedCell toyFormat toyCell)⟩,
       xorStream toyState.cipher.stream toyState.cipher.pos
         (setRange (zeroedCell toyFormat toyCell) toyFormat.digestStart
           ((toyDigest.hash (toyState.digest ++
             zeroedCell toyFormat toyCell)).take toyFormat.digestWidth)),
       (toyDigest.hash (toyState.digest ++
         zeroedCell toyFormat toyCell)).take 4) ∧
     originate toyDigest toyFormat 4 toyState toyCell =
      (⟨⟨toyState.cipher.stream, toyState.cipher.pos + toyCell.length⟩,
        toyState.digest ++ zeroedCell toyFormat toyCell,
        toyDigest.hash (toyState.digest ++ zeroedCell toyFormat toyCell)⟩,
       xorStream toyState.cipher.stream toyState.cipher.pos
         (setRange (zeroedCell toyFormat toyCell) toyFormat.digestStart
           ((toyDigest.hash (toyState.digest ++
             zeroedCell toyFormat toyCell)).take toyFormat.digestWidth)),
       (toyDigest.hash (toyState.digest ++
         zeroedCell toyFormat toyCell)).take 4)) :=
  ⟨⟨by decide, by decide⟩,
   originate_step_sequence toyDigest toyFormat 4 toyState toyCell
     (by decide) (by decide)⟩

/-- C7: the plain encrypt operations (outbound and inbound) apply the
keystream to the entire buffer, advance the cipher position by exactly
the buffer length, and change nothing else: the keystream function, the
digest accumulator, and the last digest value are untouched. -/
theorem encrypt_frame_condition (s : CryptState) (cell : List Nat) :
    encrypt_outbound s cell =
      (⟨⟨s.cipher.stream, s.cipher.pos + cell.length⟩,
        s.digest, s.last_digest_val⟩,
       xorStream s.cipher.stream s.cipher.pos cell) ∧
    encrypt_inbound s cell =
      (⟨⟨s.cipher.stream, s.cipher.pos + cell.length⟩,
        s.digest, s.last_digest_val⟩,
       xorStream s.cipher.stream s.cipher.pos cell) :=
  ⟨rfl, rfl⟩

/-- C9: for every outcome, the cell buffer returned by a
decrypt-and-check operation is exactly the input buffer with one
keystream application; the recognition check itself never changes the
buffer. -/
theorem recognition_no_buffer_mutation (D : DigestSpec) (F : CellFormat)
    (tagLen : Nat) (s : CryptState) (cell : List Nat) :
    (decrypt_outbound D F tagLen s cell).2.1 =
      xorStream s.cipher.stream s.cipher.pos cell ∧
    (decrypt_inbound D F tagLen s cell).2.1 =
      xorStream s.cipher.stream s.cipher.pos cell :=
  ⟨rfl, rfl⟩

/-- The last digest value returned by the recognition check: the full
finalized scratch value on the recognized path, the unchanged previous
value otherwise. -/
lemma is_recognized_last_val (D : DigestSpec) (F : CellFormat)
    (cell d rcvd : List Nat) :
    (is_recognized D F cell d rcvd).2.2 =
      if (is_recognized D F cell d rcvd).1 then
        D.hash (d ++ cell.take F.digestStart ++ F.EMPTY_DIGEST ++
          cell.drop F.digestEnd)
      else rcvd := by
  by_cases hz : ct_is_zero (recognizedField F cell) = false
  · simp only [is_recognized, if_pos hz]
    simp
  · simp only [is_recognized, if_neg hz]
    by_cases hq : ct_bytes_eq (digestField F cell)
        ((D.hash (d ++ cell.take F.digestStart ++ F.EMPTY_DIGEST ++
          cell.drop F.digestEnd)).take F.digestWidth) = true
    · simp only [if_pos hq]
      simp
    · simp only [if_neg hq]
      simp

/-- C10: on every not-recognized outcome the stored last digest value
is left unchanged along with the running accumulator; it is overwritten
(with the full finalized value) only on the recognized path.  Stated
for the recognition check itself and lifted through decrypt-outbound. -/
theorem not_recognized_preserves_last_digest (D : DigestSpec)
    (F : CellFormat) (tagLen : Nat) (s : CryptState)
    (cell d rcvd : List Nat) :
    ((is_recognized D F cell d rcvd).2.2 =
      if (is_recognized D F cell d rcvd).1 then
        D.hash (d ++ cell.take F.digestStart ++ F.EMPTY_DIGEST ++
          cell.drop F.digestEnd)
      else rcvd) ∧
    ((decrypt_outbound D F tagLen s cell).1.last_digest_val =
      if ((decrypt_outbound D F tagLen s cell).2.2).isSome then
        D.hash (s.digest ++
          (xorStream s.cipher.stream s.cipher.pos cell).take F.digestStart ++
          F.EMPTY_DIGEST ++
          (xorStream s.cipher.stream s.cipher.pos cell).drop F.digestEnd)
      else s.last_digest_val) := by
  refine ⟨is_recognized_last_val D F cell d rcvd, ?_⟩
  have h1 := is_recognized_last_val D F
    (xorStream s.cipher.stream s.cipher.pos cell) s.digest s.last_digest_val
  by_cases hr : (is_recognized D F
      (xorStream s.cipher.stream s.cipher.pos cell)
      s.digest s.last_digest_val).1 = true
  · simp only [hr, if_true] at h1
    simp only [decrypt_outbound, applyKeystream, hr, if_true,
      Option.isSome_some]
    exact h1
  · have hr' : (is_recognized D F
        (xorStream s.cipher.stream s.cipher.pos cell)
        s.digest s.last_digest_val).1 = false := by
      simpa using hr
    simp only [hr', if_false] at h1
    simp only [decrypt_outbound, applyKeystream, hr',
      Bool.false_eq_true, if_false, Option.isSome_none]
    exact h1

/-- C3: for every cipher/digest pair, a seed of any length other than
2×digest_output_size + 2×cipher_key_size + binding_key_size is rejected
with the internal/invariant error, and a seed of exactly that length
always yields a Hop State Pair. -/
theorem seed_length_validation (C : CipherSpec) (D : DigestSpec)
    (seed : List Nat) :
    (seed.length ≠ seed_len C D →
      initPair C D seed = Except.error Error.internalInvariant) ∧
    (seed.length = seed_len C D → (initPair C D seed).isOk = true) := by
  constructor
  · intro h
    simp only [initPair, if_pos h]
  · intro h
    have hne : ¬ seed.length ≠ seed_len C D := by simp [h]
    have hbk : (((((seed.drop D.outLen).drop D.outLen).drop
        C.keyLen).drop C.keyLen).take CIRC_BINDING_LEN).length =
        CIRC_BINDING_LEN := by
      simp only [List.length_take, List.length_drop]
      simp only [seed_len] at h
      omega
    simp only [initPair, if_neg hne, CircuitBinding.tryFrom, if_pos hbk]
    rfl

/-- Witness for C3: a 5-byte seed is rejected, the exact-length toy
seed is accepted. -/
theorem seed_length_validation_witness :
    ((List.replicate 5 0).length ≠ seed_len toyCipher toyDigest ∧
     initPair toyCipher toyDigest (List.replicate 5 0) =
       Except.error Error.internalInvariant) ∧
    (toySeed.length = seed_len toyCipher toyDigest ∧
     (initPair toyCipher toyDigest toySeed).isOk = true) :=
  ⟨⟨by decide,
    (seed_length_validation toyCipher toyDigest
      (List.replicate 5 0)).1 (by decide)⟩,
   ⟨by decide,
    (seed_length_validation toyCipher toyDigest toySeed).2 (by decide)⟩⟩

/-- C4: a seed of the correct length splits, in order and with no
padding or length prefixes, into forward digest seed, backward digest
seed, forward cipher key, backward cipher key, and binding key
material; each cipher is keyed with its key slice and the zero/default
IV at position 0, and each digest accumulator starts as a fresh digest
primed with its seed slice. -/
theorem key_derivation_split (C : CipherSpec) (D : DigestSpec)
    (seed : List Nat) (h : seed.length = seed_len C D) :
    ∃ df db kf kb bk,
      df.length = D.outLen ∧ db.length = D.outLen ∧
      kf.length = C.keyLen ∧ kb.length = C.keyLen ∧
      bk.length = CIRC_BINDING_LEN ∧
      df ++ db ++ kf ++ kb ++ bk = seed ∧
      initPair C D seed = Except.ok
        ⟨⟨⟨C.ks kf (zeroIV C), 0⟩, df, List.replicate D.outLen 0⟩,
         ⟨⟨C.ks kb (zeroIV C), 0⟩, db, List.replicate D.outLen 0⟩,
         ⟨bk⟩⟩ := by
  refine ⟨seed.take D.outLen,
    (seed.drop D.outLen).take D.outLen,
    ((seed.drop D.outLen).drop D.outLen).take C.keyLen,
    (((seed.drop D.outLen).drop D.outLen).drop C.keyLen).take C.keyLen,
    ((((seed.drop D.outLen).drop D.outLen).drop C.keyLen).drop
      C.keyLen).take CIRC_BINDING_LEN,
    ?_, ?_, ?_, ?_, ?_, ?_, ?_⟩
  · simp only [List.length_take, List.length_drop]
    simp only [seed_len] at h
    omega
  · simp only [List.length_take, List.length_drop]
    simp only [seed_len] at h
    omega
  · simp only [List.length_take, List.length_drop]
    simp only [seed_len] at h
    omega
  · simp only [List.length_take, List.length_drop]
    simp only [seed_len] at h
    omega
  · simp only [List.length_take, List.length_drop]
    simp only [seed_len] at h
    omega
  · have h20 : ((((seed.drop D.outLen).drop D.outLen).drop
        C.keyLen).drop C.keyLen).length ≤ CIRC_BINDING_LEN := by
      simp only [List.length_drop]
      simp only [seed_len] at h
      omega
    rw [List.take_of_length_le h20]
    simp only [List.append_assoc, List.take_append_drop]
  · have hne : ¬ seed.length ≠ seed_len C D := by simp [h]
    have hbk : (((((seed.drop D.outLen).drop D.outLen).drop
        C.keyLen).drop C.keyLen).take CIRC_BINDING_LEN).length =
        CIRC_BINDING_LEN := by
      simp only [List.length_take, List.length_drop]
      simp only [seed_len] at h
      omega
    simp only [initPair, if_neg hne, CircuitBinding.tryFrom, if_pos hbk,
      CipherSpec.newCipher]

/-- Witness for C4 at the toy instances. -/
theorem key_derivation_split_witness :
    toySeed.length = seed_len toyCipher toyDigest ∧
    (∃ df db kf kb bk,
      df.length = toyDigest.outLen ∧ db.length = toyDigest.outLen ∧
      kf.length = toyCipher.keyLen ∧ kb.length = toyCipher.keyLen ∧
      bk.length = CIRC_BINDING_LEN ∧
      df ++ db ++ kf ++ kb ++ bk = toySeed ∧
      initPair toyCipher toyDigest toySeed = Except.ok
        ⟨⟨⟨toyCipher.ks kf (zeroIV toyCipher), 0⟩, df,
          List.replicate toyDigest.outLen 0⟩,
         ⟨⟨toyCipher.ks kb (zeroIV toyCipher), 0⟩, db,
          List.replicate toyDigest.outLen 0⟩,
         ⟨bk⟩⟩) :=
  ⟨by decide,
   key_derivation_split toyCipher toyDigest toySeed (by decide)⟩

/-- C6: the authentication tag returned by originate, and the one
returned by a successful decrypt-and-check, is the fixed-length prefix
of the full digest finalize output stored as the last digest value;
that fixed length is no greater than the digest field width of the
current cell format. -/
theorem sendme_tag_width (D : DigestSpec) (F : CellFormat)
    (s : CryptState) (cell : List Nat) :
    ((originate_for D F SENDME_TAG_LEN s cell).2.2 =
      ((originate_for D F SENDME_TAG_LEN s cell).1.last_digest_val).take
        SENDME_TAG_LEN) ∧
    ((decrypt_outbound D F SENDME_TAG_LEN s cell).2.2 = none ∨
     (decrypt_outbound D F SENDME_TAG_LEN s cell).2.2 =
      some (((decrypt_outbound D F SENDME_TAG_LEN s
        cell).1.last_digest_val).take SENDME_TAG_LEN)) ∧
    SENDME_TAG_LEN ≤ formatV0.digestWidth := by
  refine ⟨rfl, ?_, by decide⟩
  by_cases hr : (is_recognized D F
      (xorStream s.cipher.stream s.cipher.pos cell)
      s.digest s.last_digest_val).1 = true
  · right
    simp only [decrypt_outbound, applyKeystream, hr, if_true]
  · left
    have hr' : (is_recognized D F
        (xorStream s.cipher.stream s.cipher.pos cell)
        s.digest s.last_digest_val).1 = false := by
      simpa using hr
    simp only [decrypt_outbound, applyKeystream, hr',
      Bool.false_eq_true, if_false]

end Tor1
